import Mathlib

/-!
Shallow embedding of src/financial_analysis_script.py, a pandas pipeline that
loads transaction CSV files, normalizes their columns, categorizes each
transaction by keyword, and emits tax reports.  Tables are embedded as lists
of typed cells, DataFrames as named columns, and the pandas operations the
script uses (rename, concat, sort_values, groupby/agg, str.contains) as
executable Lean functions over those lists.
-/

/-- A typed cell value, as produced by reading a CSV file: a string field or a
numeric field.  Amounts are embedded as integers; no claim inspects
fractional amount values.  A missing value (null/NaN) is the surrounding
Option being none. -/
inductive Cell where
  | str : String → Cell
  | num : Int → Cell
deriving DecidableEq

/-- A cell that may be null. -/
abbrev CellV := Option Cell

/-- A DataFrame: a row count and named columns (each column holds one value
per row).  Mirrors the tabular data the script receives from pd.read_csv. -/
structure DF where
  nrows : Nat
  cols : List (String × List CellV)
deriving DecidableEq

/-- A calendar date, the result of successful date parsing. -/
structure SDate where
  y : Nat
  m : Nat
  d : Nat
deriving DecidableEq

/-- One transaction row of the unified table self.data after loading: the
canonical columns Date, Description, Amount, plus Source_File, the Category
column (none until _categorize_transactions creates it) and the Month column
(none until generate_tax_reports creates it, line 170 of the source). -/
structure Row where
  date : Option SDate
  description : Option String
  amount : Option Cell
  sourceFile : String
  category : Option String
  month : Option (Nat × Nat)
deriving DecidableEq

/-! ## Schema normalizer (_standardize_columns, lines 106-129) -/

/-- The column alias table of _standardize_columns (source lines 111-115). -/
def columnMapping : List (String × List String) :=
  [("Date", ["Date", "Transaction Date", "Posted Date"]),
   ("Description", ["Description", "Original Description"]),
   ("Amount", ["Amount", "Transaction Amount"])]

/-- The first column named n, with its values: embeds df[n] lookup. -/
def getCol? (df : DF) (n : String) : Option (List CellV) :=
  (df.cols.find? (fun p => p.1 = n)).map (fun p => p.2)

/-- Embeds the test: col in df.columns. -/
def hasCol (df : DF) (n : String) : Bool :=
  (getCol? df n).isSome

/-- Embeds df.rename(columns={old: target}): every column named old is
renamed to target, values untouched. -/
def renameCol (df : DF) (old target : String) : DF :=
  ⟨df.nrows, df.cols.map (fun p => if p.1 = old then (target, p.2) else p)⟩

/-- One iteration of the outer loop of lines 118-122: find the first alias
present (the inner loop with its break) and rename it to the standard name. -/
def renameStep (df : DF) (std : String) (aliases : List String) : DF :=
  match aliases.find? (fun c => hasCol df c) with
  | some c => renameCol df c std
  | none => df

/-- One iteration of lines 125-127: if the standard column is absent, create
it filled with null (df[std_col] = None). -/
def fillStep (df : DF) (std : String) : DF :=
  if hasCol df std then df else ⟨df.nrows, df.cols ++ [(std, List.replicate df.nrows none)]⟩

/-- _standardize_columns (lines 106-129): rename the first present alias of
each canonical column, then null-fill any canonical column still absent. -/
def standardizeColumns (df : DF) : DF :=
  let df1 := columnMapping.foldl (fun d p => renameStep d p.1 p.2) df
  ["Date", "Description", "Amount"].foldl fillStep df1

/-! ## Date parsing and row extraction (load_financial_data, lines 63-104) -/

/-- The digits of a numeral, or none when the characters are not all digits
or there are none. -/
def parseDigits (cs : List Char) : Option Nat :=
  match cs with
  | [] => none
  | _ =>
    if cs.all Char.isDigit then
      some (cs.foldl (fun acc c => acc * 10 + (c.toNat - 48)) 0)
    else none

/-- Split a character list at each dash. -/
def splitDash (cs : List Char) : List (List Char) :=
  match cs with
  | [] => [[]]
  | c :: t =>
    match splitDash t with
    | [] => [[c]]
    | h :: r => if c = '-' then [] :: h :: r else (c :: h) :: r

/-- Models pd.to_datetime(..., errors=coerce) on line 94, restricted to ISO
yyyy-mm-dd strings: a well-formed date parses, anything else (other strings,
numeric cells, nulls) coerces to null. -/
def parseDate (c : CellV) : Option SDate :=
  match c with
  | some (Cell.str s) =>
    match (splitDash s.data).map parseDigits with
    | [some y, some m, some d] =>
      if 1 ≤ m && m ≤ 12 && 1 ≤ d && d ≤ 31 then some ⟨y, m, d⟩ else none
    | _ => none
  | _ => none

/-- The Description cell as a string: string cells pass through, numeric or
null cells behave as null for the .str accessor used at lines 140 and 144. -/
def descOf (c : CellV) : Option String :=
  match c with
  | some (Cell.str s) => some s
  | _ => none

/-- The cell of column n at row index i (null when absent, which after
standardization does not happen for the canonical columns). -/
def cellAt (df : DF) (n : String) (i : Nat) : CellV :=
  ((getCol? df n).getD (List.replicate df.nrows none)).getD i none

/-- The rows a standardized file contributes to the unified table: canonical
cells extracted per index, Source_File stamped (line 81), dates parsed
(line 94), Category and Month columns not yet created. -/
def dfToRows (df : DF) (src : String) : List Row :=
  (List.range df.nrows).map (fun i =>
    ⟨parseDate (cellAt df "Date" i), descOf (cellAt df "Description" i),
     cellAt df "Amount" i, src, none, none⟩)

/-! ## Categorizer (_create_category_mapping and _categorize_transactions) -/

/-- The rule table of _create_category_mapping (lines 15-61), in its declared
insertion order, which dict iteration preserves. -/
def categoryMapping : List (String × String) :=
  [("PLANE CONNECTION", "Business"),
   ("PLANE CONNECTION LLC", "Business"),
   ("PLANE CONNECT", "Business"),
   ("TITAN AVIATION", "Business"),
   ("ADP FEES", "Business"),
   ("PAYROLL", "Business"),
   ("LUMIS", "Business"),
   ("LUMIS INC", "Business"),
   ("LAW SCHOOL", "Law School"),
   ("BARBRI", "Law School"),
   ("BAR EXAM", "Law School"),
   ("LEGAL EDUCATION", "Law School"),
   ("WESTLAW", "Law School"),
   ("LEXIS", "Law School"),
   ("HOMESCHOOL", "Homeschool"),
   ("CURRICULUM", "Homeschool"),
   ("EDUCATIONAL", "Homeschool"),
   ("BOOKS & SUPPLIES", "Homeschool"),
   ("ADOBE", "Subscription"),
   ("AMAZON PRIME", "Subscription"),
   ("NETFLIX", "Subscription"),
   ("HULU", "Subscription"),
   ("SPOTIFY", "Subscription"),
   ("GROCERIES", "Personal"),
   ("RESTAURANTS", "Personal"),
   ("ENTERTAINMENT", "Personal"),
   ("SHOPPING", "Personal"),
   ("UTILITIES", "Personal"),
   ("CREDIT CARD PAYMENT", "Financial"),
   ("TRANSFER", "Financial"),
   ("PAYCHECK", "Income"),
   ("INTEREST INCOME", "Income")]

/-- Uppercase the characters of a string, embedding str.upper for the ASCII
descriptions the script handles. -/
def upperChars (s : String) : List Char :=
  s.data.map Char.toUpper

/-- Substring test: pat occurs contiguously inside s. -/
def containsSub (s pat : List Char) : Bool :=
  match s with
  | [] => pat.isEmpty
  | _ :: t => pat.isPrefixOf s || containsSub t pat

/-- One keyword test of line 140: Description.str.upper().str.contains(kw,
na=False).  The keywords of the rule table hold no regex metacharacter, so
the pandas regex match is plain substring containment; a null description
never matches (na=False). -/
def kwHit (d : Option String) (kw : String) : Bool :=
  match d with
  | none => false
  | some s => containsSub (upperChars s) kw.data

/-- The override test of line 144: Description.str.contains(pattern,
case=False, na=False) with the alternation pattern of NH and NEW HAMPSHIRE,
so a match is either substring, case-insensitively; null never matches. -/
def nhHit (d : Option String) : Bool :=
  match d with
  | none => false
  | some s => containsSub (upperChars s) "NH".data || containsSub (upperChars s) "NEW HAMPSHIRE".data

/-- Line 136: the Category column is created holding Uncategorized. -/
def initCategory (rows : List Row) : List Row :=
  rows.map (fun r => {r with category := some "Uncategorized"})

/-- What one rule of the loop at lines 139-141 does to one row: a matching
row has its category overwritten to the rule category. -/
def applyRuleRow (p : String × String) (r : Row) : Row :=
  if kwHit r.description p.1 then {r with category := some p.2} else r

/-- One iteration of the loop at lines 139-141 over the whole table. -/
def applyRule (rows : List Row) (p : String × String) : List Row :=
  rows.map (applyRuleRow p)

/-- Lines 136-141: initialize the Category column, then apply every rule of
the table in declared order, each overwriting the matches of the previous. -/
def categorizeKeywordStage (rows : List Row) : List Row :=
  categoryMapping.foldl applyRule (initCategory rows)

/-- Line 144: the New Hampshire override, run after all keyword rules. -/
def applyNH (rows : List Row) : List Row :=
  rows.map (fun r => if nhHit r.description then {r with category := some "Law School"} else r)

/-- _categorize_transactions (lines 131-144). -/
def categorizeTransactions (rows : List Row) : List Row :=
  applyNH (categorizeKeywordStage rows)

/-- The category one description ends with after the keyword loop: the last
matching rule wins, else Uncategorized.  Proved below to agree with
categorizeKeywordStage row by row. -/
def keywordFold (d : Option String) : String :=
  categoryMapping.foldl (fun acc p => if kwHit d p.1 then p.2 else acc) "Uncategorized"

/-- The category one description ends with after the whole categorizer. -/
def finalCategory (d : Option String) : String :=
  if nhHit d then "Law School" else keywordFold d

/-! ## Loader (load_financial_data, lines 63-104) -/

/-- Date order used by the sort at line 97 (ascending). -/
def sdateLe (a b : SDate) : Bool :=
  decide (a.y < b.y) ||
    (decide (a.y = b.y) && (decide (a.m < b.m) || (decide (a.m = b.m) && decide (a.d ≤ b.d))))

/-- Date order lifted to nullable dates: null dates sort last, the pandas
sort_values default na_position. -/
def odateLe (a b : Option SDate) : Bool :=
  match a, b with
  | none, none => true
  | none, some _ => false
  | some _, none => true
  | some x, some z => sdateLe x z

/-- The sort at line 97: self.data.sort_values(Date), ascending with nulls
last.  The source leaves the pandas default sort kind (quicksort), whose
order among equal dates is not specified; the embedding uses an insertion
sort and no theorem below relies on the relative order of equal dates. -/
def sortByDate (rows : List Row) : List Row :=
  List.insertionSort (fun a b => odateLe a.date b.date = true) rows

/-- load_financial_data (lines 63-104).  A file is given as its path together
with the outcome of reading it: none when pd.read_csv raised (the except
branch skips the file), some df when it produced a table.  With at least one
loaded file the tables are standardized, stamped, concatenated, date-parsed,
sorted and categorized; with none, self.data is left unset (None). -/
def loadFinancialData (files : List (String × Option DF)) : Option (List Row) :=
  let allData := files.filterMap (fun f => (f.2).map (fun df => dfToRows (standardizeColumns df) f.1))
  match allData with
  | [] => none
  | _ => some (categorizeTransactions (sortByDate allData.flatten))

/-! ## Report builder (generate_tax_reports, lines 146-194) -/

/-- Code-point order on strings, the order pandas groupby sorts string keys
by.  Structural so that concrete instances evaluate. -/
def lexLe : List Char → List Char → Bool
  | [], _ => true
  | _ :: _, [] => false
  | a :: s, b :: t =>
    decide (a.toNat < b.toNat) || (decide (a.toNat = b.toNat) && lexLe s t)

/-- Order on strings by code points. -/
def strLe (a b : String) : Bool :=
  lexLe a.data b.data

/-- The group keys of groupby(Category) (line 163): the distinct non-null
categories present, sorted (the groupby default sorts keys); a null key
would be dropped (the groupby default dropna). -/
def catKeys (rows : List Row) : List String :=
  List.insertionSort (fun a b => strLe a b = true) ((rows.filterMap (fun r => r.category)).dedup)

/-- The count aggregate of line 164 for one category group: pandas count
tallies the non-null Amount cells of the group, not its rows. -/
def countNonNullAmount (rows : List Row) (c : String) : Nat :=
  (rows.filter (fun r => r.category = some c && (r.amount).isSome)).length

/-- The sum aggregate of line 164 for one category group: null amounts are
skipped (pandas default skipna), an all-null group sums to 0. -/
def sumAmount (rows : List Row) (c : String) : Int :=
  (rows.filter (fun r => r.category = some c)).foldl
    (fun acc r => match r.amount with | some (Cell.num n) => acc + n | _ => acc) 0

/-- The category summary table of lines 163-166: one row per category
present, [Category, Transaction_Count, Total_Amount]. -/
def categorySummary (rows : List Row) : List (String × Nat × Int) :=
  (catKeys rows).map (fun c => (c, countNonNullAmount rows c, sumAmount rows c))

/-- Line 170: self.data[Month] = self.data[Date].dt.to_period(M) stores the
year-month of each date on the row; a null date gives a null month. -/
def storeMonth (r : Row) : Row :=
  {r with month := r.date.map (fun dt => (dt.y, dt.m))}

/-- Order on the (Month, Category) group keys of line 171. -/
def mkeyLe (a b : (Nat × Nat) × String) : Bool :=
  decide (a.1.1 < b.1.1) ||
    (decide (a.1.1 = b.1.1) &&
      (decide (a.1.2 < b.1.2) || (decide (a.1.2 = b.1.2) && strLe a.2 b.2)))

/-- The monthly breakdown of lines 171-174: one row per (Month, Category)
pair present (null months dropped by groupby), [Total_Amount sum,
Transaction_Count count of non-null amounts]. -/
def monthlyBreakdown (rows : List Row) : List ((Nat × Nat) × String × Int × Nat) :=
  let keys := List.insertionSort (fun a b => mkeyLe a b = true)
    ((rows.filterMap (fun r =>
        match r.month, r.category with
        | some mo, some c => some (mo, c)
        | _, _ => none)).dedup)
  keys.map (fun k =>
    let grp := rows.filter (fun r => r.month = some k.1 && r.category = some k.2)
    (k.1, k.2,
     grp.foldl (fun acc r => match r.amount with | some (Cell.num n) => acc + n | _ => acc) 0,
     (grp.filter (fun r => (r.amount).isSome)).length))

/-- The Date column minimum of line 185 (pandas min skips nulls; all-null
gives NaT, embedded as none). -/
def minDate (rows : List Row) : Option SDate :=
  (rows.filterMap (fun r => r.date)).foldl
    (fun acc dt =>
      match acc with
      | none => some dt
      | some a => if sdateLe dt a then some dt else some a) none

/-- The Date column maximum of line 185. -/
def maxDate (rows : List Row) : Option SDate :=
  (rows.filterMap (fun r => r.date)).foldl
    (fun acc dt =>
      match acc with
      | none => some dt
      | some a => if sdateLe a dt then some dt else some a) none

/-- The artifact values generate_tax_reports writes: the detailed log
(line 159, taken before the Month column exists), the category summary
(lines 163-166), the monthly breakdown (lines 171-174), the business expense
subset (lines 177-179, taken after the Month column exists), and the tax
summary header data (lines 185-186). -/
structure Artifacts where
  detailedLog : List Row
  categorySummary : List (String × Nat × Int)
  monthlyBreakdown : List ((Nat × Nat) × String × Int × Nat)
  businessExpenses : List Row
  taxMinDate : Option SDate
  taxMaxDate : Option SDate
  taxTotalTransactions : Nat
deriving DecidableEq

/-- The exception message of the attribute access self.data.copy() when
self.data is None. -/
def attrErrMsg : String :=
  "AttributeError: NoneType object has no attribute copy"

/-- generate_tax_reports (lines 146-194) on the state self.data.  When no
data was loaded self.data is None and line 159 raises AttributeError;
otherwise the five artifacts are computed in source order, the Month column
being stored on self.data at line 170, between the category summary and the
monthly breakdown.  Returns the mutated table together with the artifacts. -/
def generateTaxReports (data : Option (List Row)) : Except String (List Row × Artifacts) :=
  match data with
  | none => Except.error attrErrMsg
  | some rows =>
    let detailed := rows
    let summary := categorySummary rows
    let rows2 := rows.map storeMonth
    let monthly := monthlyBreakdown rows2
    let business := rows2.filter (fun r => r.category = some "Business")
    Except.ok (rows2,
      ⟨detailed, summary, monthly, business, minDate rows2, maxDate rows2, rows2.length⟩)

/-! ## Categorizer lemmas -/

lemma applyRuleRow_description (p : String × String) (r : Row) :
    (applyRuleRow p r).description = r.description := by
  unfold applyRuleRow
  split <;> rfl

lemma foldl_applyRule_map (rules : List (String × String)) :
    ∀ rows : List Row,
      rules.foldl applyRule rows = rows.map (fun r => rules.foldl (fun s p => applyRuleRow p s) r) := by
  induction rules with
  | nil => intro rows; simp
  | cons p ps ih =>
    intro rows
    simp only [List.foldl_cons, applyRule, ih, List.map_map]
    rfl

lemma foldl_applyRuleRow_eq (rules : List (String × String)) :
    ∀ (r : Row) (c : String), r.category = some c →
      rules.foldl (fun s p => applyRuleRow p s) r
        = {r with category := some (rules.foldl (fun acc p => if kwHit r.description p.1 then p.2 else acc) c)} := by
  induction rules with
  | nil =>
    intro r c hc
    cases r
    simp_all
  | cons p ps ih =>
    intro r c hc
    obtain ⟨dt, ds, am, sf, cat, mo⟩ := r
    by_cases hk : kwHit ds p.1 = true
    · have h1 : applyRuleRow p ⟨dt, ds, am, sf, cat, mo⟩ = ⟨dt, ds, am, sf, some p.2, mo⟩ := by
        simp [applyRuleRow, hk]
      simpa [h1, hk] using ih ⟨dt, ds, am, sf, some p.2, mo⟩ p.2 rfl
    · have h1 : applyRuleRow p ⟨dt, ds, am, sf, cat, mo⟩ = ⟨dt, ds, am, sf, cat, mo⟩ := by
        simp [applyRuleRow, hk]
      simpa [h1, hk] using ih ⟨dt, ds, am, sf, cat, mo⟩ c hc

lemma categorizeKeywordStage_eq (rows : List Row) :
    categorizeKeywordStage rows
      = rows.map (fun r => {r with category := some (keywordFold r.description)}) := by
  unfold categorizeKeywordStage initCategory
  rw [foldl_applyRule_map, List.map_map]
  refine List.map_congr_left (fun r _ => ?_)
  obtain ⟨dt, ds, am, sf, cat, mo⟩ := r
  simpa [keywordFold] using
    foldl_applyRuleRow_eq categoryMapping ⟨dt, ds, am, sf, some "Uncategorized", mo⟩ "Uncategorized" rfl

lemma categorizeTransactions_eq (rows : List Row) :
    categorizeTransactions rows
      = rows.map (fun r => {r with category := some (finalCategory r.description)}) := by
  unfold categorizeTransactions applyNH
  rw [categorizeKeywordStage_eq, List.map_map]
  refine List.map_congr_left (fun r _ => ?_)
  obtain ⟨dt, ds, am, sf, cat, mo⟩ := r
  by_cases hn : nhHit ds = true
  · simp [hn, finalCategory]
  · simp [hn, finalCategory]

lemma categorize_category_getD (rows : List Row) (i : Nat) (h : i < rows.length) :
    ((categorizeTransactions rows).map Row.category).getD i none
      = some (finalCategory ((rows.map Row.description).getD i none)) := by
  rw [categorizeTransactions_eq, List.map_map]
  rw [List.getD_eq_getElem?_getD, List.getD_eq_getElem?_getD]
  rw [List.getElem?_map, List.getElem?_map, List.getElem?_eq_getElem h]
  rfl

lemma stage_category_getD (rows : List Row) (i : Nat) (h : i < rows.length) :
    ((categorizeKeywordStage rows).map Row.category).getD i none
      = some (keywordFold ((rows.map Row.description).getD i none)) := by
  rw [categorizeKeywordStage_eq, List.map_map]
  rw [List.getD_eq_getElem?_getD, List.getD_eq_getElem?_getD]
  rw [List.getElem?_map, List.getElem?_map, List.getElem?_eq_getElem h]
  rfl

lemma desc_getD_none_of_ge (rows : List Row) (i : Nat) (h : ¬ i < rows.length) :
    (rows.map Row.description).getD i none = none := by
  rw [List.getD_eq_getElem?_getD, List.getElem?_eq_none]
  · rfl
  · simpa using Nat.le_of_not_lt h

lemma finalCategory_of_nhHit (d : Option String) (h : nhHit d = true) :
    finalCategory d = "Law School" := by
  simp [finalCategory, h]

lemma keywordFold_eq_getLastD (d : Option String) :
    ∀ (rules : List (String × String)) (init : String),
      rules.foldl (fun acc p => if kwHit d p.1 then p.2 else acc) init
        = ((rules.filter (fun p => kwHit d p.1)).map Prod.snd).getLastD init := by
  intro rules
  induction rules with
  | nil => intro init; rfl
  | cons p ps ih =>
    intro init
    by_cases hk : kwHit d p.1 = true
    · rw [List.foldl_cons, if_pos hk, List.filter_cons_of_pos (by simpa using hk),
        List.map_cons, List.getLastD_cons]
      exact ih p.2
    · rw [List.foldl_cons, if_neg hk, List.filter_cons_of_neg (by simpa using hk)]
      exact ih init

/-! ## Claims about the categorizer -/

/-- C2: for every transaction, after all keyword rules run, if the
description contains NH or NEW HAMPSHIRE case-insensitively as a substring,
its final category is Law School, overwriting any category assigned by a
keyword rule. -/
theorem c2_nh_override_final (rows : List Row) (i : Nat)
    (h : nhHit ((rows.map Row.description).getD i none) = true) :
    ((categorizeTransactions rows).map Row.category).getD i none = some "Law School" := by
  by_cases hl : i < rows.length
  · rw [categorize_category_getD rows i hl, finalCategory_of_nhHit _ h]
  · rw [desc_getD_none_of_ge rows i hl] at h
    simp [nhHit] at h

/-- The description NETFLIX NH matches the keyword NETFLIX (category
Subscription) and the override, which wins. -/
def wrowsC2 : List Row := [⟨none, some "NETFLIX NH", none, "cc.csv", none, none⟩]

/-- Witness for C2 at the one-row table wrowsC2. -/
theorem c2_nh_override_final_witness :
    nhHit ((wrowsC2.map Row.description).getD 0 none) = true ∧
      ((categorizeTransactions wrowsC2).map Row.category).getD 0 none = some "Law School" :=
  ⟨by decide, c2_nh_override_final wrowsC2 0 (by decide)⟩

/-- C3: for every transaction whose description matches two or more
configured keywords, the category assigned before the NH override is that of
the last matching rule in the declared order of the rule table: each
matching rule unconditionally overwrites any prior assignment. -/
theorem c3_later_rule_wins (rows : List Row) (i : Nat) (h : i < rows.length)
    (h2 : 2 ≤ (categoryMapping.filter
      (fun p => kwHit ((rows.map Row.description).getD i none) p.1)).length) :
    ((categorizeKeywordStage rows).map Row.category).getD i none
      = some (((categoryMapping.filter
          (fun p => kwHit ((rows.map Row.description).getD i none) p.1)).map Prod.snd).getLastD
            "Uncategorized") := by
  rw [stage_category_getD rows i h]
  congr 1
  unfold keywordFold
  exact keywordFold_eq_getLastD _ categoryMapping "Uncategorized"

/-- A description matching both LUMIS (Business, declared earlier) and
LAW SCHOOL (Law School, declared later). -/
def wrowsC3 : List Row := [⟨none, some "LUMIS LAW SCHOOL tuition", none, "bk.csv", none, none⟩]

/-- Witness for C3: the later rule, LAW SCHOOL, wins over LUMIS. -/
theorem c3_later_rule_wins_witness :
    0 < wrowsC3.length ∧
    2 ≤ (categoryMapping.filter
      (fun p => kwHit ((wrowsC3.map Row.description).getD 0 none) p.1)).length ∧
    ((categorizeKeywordStage wrowsC3).map Row.category).getD 0 none
      = some (((categoryMapping.filter
          (fun p => kwHit ((wrowsC3.map Row.description).getD 0 none) p.1)).map Prod.snd).getLastD
            "Uncategorized") :=
  ⟨by decide, by decide, c3_later_rule_wins wrowsC3 0 (by decide) (by decide)⟩

/-- C9: a transaction with a null description matches no keyword rule and no
override, so its final category is Uncategorized, and every transaction ends
the pipeline with exactly one non-null category. -/
theorem c9_null_description (rows : List Row) (i : Nat) (h : i < rows.length)
    (hd : (rows.map Row.description).getD i none = none) :
    ((categorizeTransactions rows).map Row.category).getD i none = some "Uncategorized"
      ∧ ∀ j, j < rows.length →
          (((categorizeTransactions rows).map Row.category).getD j none).isSome = true := by
  constructor
  · rw [categorize_category_getD rows i h, hd]
    rfl
  · intro j hj
    rw [categorize_category_getD rows j hj]
    rfl

/-- A one-row table whose only description is null. -/
def wrowsC9 : List Row := [⟨none, none, some (Cell.num 5), "bk.csv", none, none⟩]

/-- Witness for C9 at the one-row table wrowsC9. -/
theorem c9_null_description_witness :
    0 < wrowsC9.length ∧ (wrowsC9.map Row.description).getD 0 none = none ∧
      (((categorizeTransactions wrowsC9).map Row.category).getD 0 none = some "Uncategorized"
        ∧ ∀ j, j < wrowsC9.length →
            (((categorizeTransactions wrowsC9).map Row.category).getD j none).isSome = true) :=
  ⟨by decide, by decide, c9_null_description wrowsC9 0 (by decide) (by decide)⟩

/-- C10: the NH override matches the two-letter sequence NH anywhere inside
the description as a raw substring, case-insensitively, including in the
interior of longer words, and forces category Law School. -/
theorem c10_nh_raw_substring (rows : List Row) (i : Nat) (s : String)
    (hd : (rows.map Row.description).getD i none = some s)
    (hs : containsSub (upperChars s) "NH".data = true) :
    ((categorizeTransactions rows).map Row.category).getD i none = some "Law School" := by
  have hl : i < rows.length := by
    by_contra hcon
    rw [desc_getD_none_of_ge rows i hcon] at hd
    exact Option.noConfusion hd
  rw [categorize_category_getD rows i hl]
  have hn : nhHit ((rows.map Row.description).getD i none) = true := by
    rw [hd]
    simp [nhHit, hs]
  rw [finalCategory_of_nhHit _ hn]

/-- The word manhattan contains the raw substring nh in its interior and
matches no configured keyword. -/
def wrowsC10 : List Row := [⟨none, some "parking manhattan garage", none, "cc.csv", none, none⟩]

/-- Witness for C10: a description containing manhattan is forced to
Law School. -/
theorem c10_nh_raw_substring_witness :
    (wrowsC10.map Row.description).getD 0 none = some "parking manhattan garage" ∧
      containsSub (upperChars "parking manhattan garage") "NH".data = true ∧
      ((categorizeTransactions wrowsC10).map Row.category).getD 0 none = some "Law School" :=
  ⟨by decide, by decide, c10_nh_raw_substring wrowsC10 0 "parking manhattan garage" (by decide) (by decide)⟩

/-! ## Claim C1: the zero-files case -/

/-- C1 counterexample: with zero input files nothing loads, self.data is
left unset rather than becoming an empty transaction set, and report
generation raises AttributeError at the first artifact instead of
completing, refuting the claim that empty artifacts are produced without an
exception. -/
theorem c1_zero_files_counterexample :
    loadFinancialData [] = none
      ∧ generateTaxReports (loadFinancialData []) = Except.error attrErrMsg :=
  ⟨rfl, rfl⟩

/-- C1 amended: if zero input files load successfully, the pipeline leaves
the transaction set unset (None, not an explicitly empty set), and report
generation on that state raises an exception (AttributeError on None) rather
than producing empty artifacts. -/
theorem c1_zero_files_raises (files : List (String × Option DF))
    (h : ∀ f ∈ files, f.2 = none) :
    loadFinancialData files = none
      ∧ generateTaxReports (loadFinancialData files) = Except.error attrErrMsg := by
  have hnil : files.filterMap
      (fun f => (f.2).map (fun df => dfToRows (standardizeColumns df) f.1)) = [] := by
    rw [List.filterMap_eq_nil_iff]
    intro f hf
    rw [h f hf]
    rfl
  have hload : loadFinancialData files = none := by
    simp only [loadFinancialData]
    rw [hnil]
  rw [hload]
  exact ⟨rfl, rfl⟩

/-- Witness for the amended C1: one file whose read fails. -/
theorem c1_zero_files_raises_witness :
    loadFinancialData [("missing.csv", (none : Option DF))] = none
      ∧ generateTaxReports (loadFinancialData [("missing.csv", (none : Option DF))])
          = Except.error attrErrMsg :=
  c1_zero_files_raises [("missing.csv", none)]
    (by
      intro f hf
      rw [List.mem_singleton] at hf
      rw [hf])

/-! ## Claim C7: the report builder stores the month key on the records -/

/-- C7 counterexample: running the report builder on a one-row table whose
month field is unset returns the table with the month stored (the Month
column of line 170), and the business expense artifact, exported after
line 170, carries that stored month, refuting the claim that records are
read-only after categorization and that the month key is never stored. -/
theorem c7_month_stored_counterexample :
    (Except.toOption (generateTaxReports
        (some [⟨some ⟨2023, 1, 5⟩, some "ADP FEES", some (Cell.num 10), "b.csv",
                some "Business", none⟩]))).map (fun p => p.1.map Row.month)
      = some [some (2023, 1)]
    ∧ (Except.toOption (generateTaxReports
        (some [⟨some ⟨2023, 1, 5⟩, some "ADP FEES", some (Cell.num 10), "b.csv",
                some "Business", none⟩]))).map (fun p => p.2.businessExpenses.map Row.month)
      = some [some (2023, 1)]
    ∧ (⟨some ⟨2023, 1, 5⟩, some "ADP FEES", some (Cell.num 10), "b.csv",
        some "Business", none⟩ : Row).month = none := by
  refine ⟨by decide, by decide, rfl⟩

/-- C7 amended: the report builder mutates the table once more after the
categorizer: it stores the derived year-month key on every canonical record
(line 170) between writing the detailed log and the monthly aggregation, so
the detailed log shows the table before that mutation while the
business-expense artifact, filtered afterwards, consists of the mutated
records carrying the stored month. -/
theorem c7_month_stored (rows : List Row) :
    (Except.toOption (generateTaxReports (some rows))).map (fun p => p.2.detailedLog)
        = some rows
    ∧ (Except.toOption (generateTaxReports (some rows))).map (fun p => p.1)
        = some (rows.map storeMonth)
    ∧ (Except.toOption (generateTaxReports (some rows))).map (fun p => p.2.businessExpenses)
        = some ((rows.map storeMonth).filter (fun r => r.category = some "Business"))
    ∧ ∀ r ∈ rows.map storeMonth, r.month = r.date.map (fun dt => (dt.y, dt.m)) := by
  refine ⟨rfl, rfl, rfl, ?_⟩
  intro r hr
  rw [List.mem_map] at hr
  obtain ⟨r0, _, rfl⟩ := hr
  rfl

/-! ## Normalizer lemmas -/

lemma find?_map_rename (cols : List (String × List CellV)) (old target n : String)
    (h1 : old ≠ n) (h2 : target ≠ n) :
    (cols.map (fun p => if p.1 = old then (target, p.2) else p)).find? (fun p => p.1 = n)
      = cols.find? (fun p => p.1 = n) := by
  induction cols with
  | nil => rfl
  | cons p t ih =>
    by_cases hp : p.1 = old
    · have hpn : ¬ p.1 = n := by rw [hp]; exact h1
      simp only [List.map_cons, if_pos hp]
      rw [List.find?_cons_of_neg _ (by simpa using h2), List.find?_cons_of_neg _ (by simpa using hpn)]
      exact ih
    · simp only [List.map_cons, if_neg hp]
      by_cases hn : p.1 = n
      · rw [List.find?_cons_of_pos _ (by simpa using hn), List.find?_cons_of_pos _ (by simpa using hn)]
      · rw [List.find?_cons_of_neg _ (by simpa using hn), List.find?_cons_of_neg _ (by simpa using hn)]
        exact ih

lemma find?_map_rename_target (cols : List (String × List CellV)) (c std : String)
    (hstd : cols.find? (fun p => p.1 = std) = none) :
    ((cols.map (fun p => if p.1 = c then (std, p.2) else p)).find? (fun p => p.1 = std)).map
        (fun p => p.2)
      = (cols.find? (fun p => p.1 = c)).map (fun p => p.2) := by
  induction cols with
  | nil => rfl
  | cons p t ih =>
    have hps : ¬ p.1 = std := by
      intro hcon
      rw [List.find?_cons_of_pos _ (by simpa using hcon)] at hstd
      exact Option.noConfusion hstd
    have hstd2 : t.find? (fun p => p.1 = std) = none := by
      rw [List.find?_cons_of_neg _ (by simpa using hps)] at hstd
      exact hstd
    by_cases hp : p.1 = c
    · simp only [List.map_cons, if_pos hp]
      rw [List.find?_cons_of_pos _ (by simp), List.find?_cons_of_pos _ (by simpa using hp)]
      rfl
    · simp only [List.map_cons, if_neg hp]
      rw [List.find?_cons_of_neg _ (by simpa using hps), List.find?_cons_of_neg _ (by simpa using hp)]
      exact ih hstd2

lemma find?_append_ne (cols : List (String × List CellV)) (x : String × List CellV) (n : String)
    (h : ¬ x.1 = n) :
    (cols ++ [x]).find? (fun p => p.1 = n) = cols.find? (fun p => p.1 = n) := by
  induction cols with
  | nil =>
    simp only [List.nil_append]
    rw [List.find?_cons_of_neg _ (by simpa using h)]
  | cons p t ih =>
    by_cases hn : p.1 = n
    · rw [List.cons_append, List.find?_cons_of_pos _ (by simpa using hn),
        List.find?_cons_of_pos _ (by simpa using hn)]
    · rw [List.cons_append, List.find?_cons_of_neg _ (by simpa using hn),
        List.find?_cons_of_neg _ (by simpa using hn)]
      exact ih

lemma find?_append_self (cols : List (String × List CellV)) (x : String × List CellV)
    (h : cols.find? (fun p => p.1 = x.1) = none) :
    (cols ++ [x]).find? (fun p => p.1 = x.1) = some x := by
  induction cols with
  | nil => simp
  | cons p t ih =>
    have hp : ¬ p.1 = x.1 := by
      intro hcon
      rw [List.find?_cons_of_pos _ (by simpa using hcon)] at h
      exact Option.noConfusion h
    have h2 : t.find? (fun p => p.1 = x.1) = none := by
      rw [List.find?_cons_of_neg _ (by simpa using hp)] at h
      exact h
    rw [List.cons_append, List.find?_cons_of_neg _ (by simpa using hp)]
    exact ih h2

lemma find?_congr_mem {α : Type} (l : List α) (p q : α → Bool) (h : ∀ a ∈ l, p a = q a) :
    l.find? p = l.find? q := by
  induction l with
  | nil => rfl
  | cons a t ih =>
    have ha := h a (List.mem_cons_self a t)
    by_cases hp : p a = true
    · rw [List.find?_cons_of_pos _ hp, List.find?_cons_of_pos _ (ha ▸ hp)]
    · rw [List.find?_cons_of_neg _ hp, List.find?_cons_of_neg _ (ha ▸ hp)]
      exact ih (fun a hm => h a (List.mem_cons_of_mem _ hm))

lemma getCol?_renameCol_ne (df : DF) (old target n : String) (h1 : old ≠ n) (h2 : target ≠ n) :
    getCol? (renameCol df old target) n = getCol? df n := by
  unfold getCol? renameCol
  rw [find?_map_rename df.cols old target n h1 h2]

lemma map_rename_self (c : String) (cols : List (String × List CellV)) :
    cols.map (fun p => if p.1 = c then (c, p.2) else p) = cols := by
  induction cols with
  | nil => rfl
  | cons p t ih =>
    by_cases hp : p.1 = c
    · rw [List.map_cons, if_pos hp, ih, ← hp]
    · rw [List.map_cons, if_neg hp, ih]

lemma renameCol_self (df : DF) (c : String) : renameCol df c c = df := by
  unfold renameCol
  obtain ⟨nr, cols⟩ := df
  simp only [DF.mk.injEq, true_and]
  exact map_rename_self c cols

lemma getCol?_renameCol_target (df : DF) (c std : String) (hstd : getCol? df std = none) :
    getCol? (renameCol df c std) std = getCol? df c := by
  unfold getCol? renameCol
  unfold getCol? at hstd
  exact find?_map_rename_target df.cols c std (Option.map_eq_none.mp hstd)

lemma getCol?_renameStep_ne (df : DF) (std : String) (aliases : List String) (n : String)
    (hal : ∀ a ∈ aliases, a ≠ n) (hstd : std ≠ n) :
    getCol? (renameStep df std aliases) n = getCol? df n := by
  unfold renameStep
  cases hfind : aliases.find? (fun c => hasCol df c) with
  | none => rfl
  | some c =>
    exact getCol?_renameCol_ne df c std n (hal c (List.mem_of_find?_eq_some hfind)) hstd

lemma renameStep_none (df : DF) (std : String) (aliases : List String)
    (hfind : aliases.find? (fun c => hasCol df c) = none) :
    renameStep df std aliases = df := by
  unfold renameStep
  rw [hfind]

lemma getCol?_renameStep_head (df : DF) (std c : String) (rest : List String)
    (hfind : (std :: rest).find? (fun a => hasCol df a) = some c) :
    getCol? (renameStep df std (std :: rest)) std = getCol? df c := by
  unfold renameStep
  rw [hfind]
  show getCol? (renameCol df c std) std = getCol? df c
  by_cases hs : hasCol df std = true
  · have hc : c = std := by
      rw [List.find?_cons_of_pos _ (by simpa using hs)] at hfind
      exact (Option.some.inj hfind).symm
    subst hc
    rw [renameCol_self]
  · have hnone : getCol? df std = none := by
      unfold hasCol at hs
      exact Option.not_isSome_iff_eq_none.mp (by simpa using hs)
    exact getCol?_renameCol_target df c std hnone

lemma fillStep_of_hasCol (df : DF) (std : String) (h : hasCol df std = true) :
    fillStep df std = df := by
  unfold fillStep
  rw [if_pos h]

lemma getCol?_fillStep_ne (df : DF) (std n : String) (h : ¬ std = n) :
    getCol? (fillStep df std) n = getCol? df n := by
  unfold fillStep
  by_cases hs : hasCol df std = true
  · rw [if_pos hs]
  · rw [if_neg hs]
    unfold getCol?
    rw [find?_append_ne df.cols (std, List.replicate df.nrows none) n h]

lemma getCol?_fillStep_self (df : DF) (std : String) (h : getCol? df std = none) :
    getCol? (fillStep df std) std = some (List.replicate df.nrows none) := by
  have hs : ¬ hasCol df std = true := by
    unfold hasCol
    rw [h]
    simp
  unfold fillStep
  rw [if_neg hs]
  unfold getCol?
  rw [find?_append_self df.cols (std, List.replicate df.nrows none)
    (Option.map_eq_none.mp (by unfold getCol? at h; exact h))]
  rfl

lemma hasCol_eq_of_getCol?_eq (df1 df2 : DF) (n : String)
    (h : getCol? df1 n = getCol? df2 n) : hasCol df1 n = hasCol df2 n := by
  unfold hasCol
  rw [h]

lemma renameStep_nrows (df : DF) (std : String) (aliases : List String) :
    (renameStep df std aliases).nrows = df.nrows := by
  unfold renameStep
  cases aliases.find? (fun c => hasCol df c) with
  | none => rfl
  | some c => rfl

lemma fillStep_nrows (df : DF) (std : String) :
    (fillStep df std).nrows = df.nrows := by
  unfold fillStep
  split <;> rfl

lemma getCol?_renameStep_found_ne (df : DF) (std c n : String) (aliases : List String)
    (hfind : aliases.find? (fun a => hasCol df a) = some c) (h1 : c ≠ n) (h2 : std ≠ n) :
    getCol? (renameStep df std aliases) n = getCol? df n := by
  unfold renameStep
  rw [hfind]
  show getCol? (renameCol df c std) n = getCol? df n
  exact getCol?_renameCol_ne df c std n h1 h2

lemma getCol?_none_of_hasCol_false (df : DF) (n : String) (h : hasCol df n = false) :
    getCol? df n = none := by
  unfold hasCol at h
  exact Option.not_isSome_iff_eq_none.mp (by simp [h])

/-- standardizeColumns unfolded into its six sequential steps. -/
lemma standardizeColumns_steps (df : DF) :
    standardizeColumns df
      = fillStep (fillStep (fillStep
          (renameStep (renameStep (renameStep df
            "Date" ["Date", "Transaction Date", "Posted Date"])
            "Description" ["Description", "Original Description"])
            "Amount" ["Amount", "Transaction Amount"])
          "Date") "Description") "Amount" := rfl

/-- The Date column of the normalized table when some date alias is present:
it carries the values of the first present alias. -/
lemma std_date_found (df : DF) (c : String)
    (hfind : ["Date", "Transaction Date", "Posted Date"].find? (fun a => hasCol df a) = some c) :
    getCol? (standardizeColumns df) "Date" = getCol? df c := by
  have hmem : c ∈ ["Date", "Transaction Date", "Posted Date"] := List.mem_of_find?_eq_some hfind
  have hsome : hasCol df c = true := List.find?_some hfind
  have e1 : getCol? (renameStep df "Date" ["Date", "Transaction Date", "Posted Date"]) "Date"
      = getCol? df c :=
    getCol?_renameStep_head df "Date" c ["Transaction Date", "Posted Date"] hfind
  rw [standardizeColumns_steps]
  rw [getCol?_fillStep_ne _ "Amount" "Date" (by decide)]
  rw [getCol?_fillStep_ne _ "Description" "Date" (by decide)]
  rw [fillStep_of_hasCol _ "Date" ?hc]
  case hc =>
    rw [hasCol, getCol?_renameStep_ne _ "Amount" ["Amount", "Transaction Amount"] "Date"
      (by decide) (by decide)]
    rw [getCol?_renameStep_ne _ "Description" ["Description", "Original Description"] "Date"
      (by decide) (by decide)]
    rw [e1]
    unfold hasCol at hsome
    exact hsome
  rw [getCol?_renameStep_ne _ "Amount" ["Amount", "Transaction Amount"] "Date"
    (by decide) (by decide)]
  rw [getCol?_renameStep_ne _ "Description" ["Description", "Original Description"] "Date"
    (by decide) (by decide)]
  exact e1

/-- The Date column of the normalized table when no date alias is present:
it is created null-filled. -/
lemma std_date_none (df : DF)
    (hfind : ["Date", "Transaction Date", "Posted Date"].find? (fun a => hasCol df a) = none) :
    getCol? (standardizeColumns df) "Date" = some (List.replicate df.nrows none) := by
  have hall := List.find?_eq_none.mp hfind
  have e0 : renameStep df "Date" ["Date", "Transaction Date", "Posted Date"] = df :=
    renameStep_none df _ _ hfind
  rw [standardizeColumns_steps, e0]
  have e1 : getCol? (renameStep (renameStep df
      "Description" ["Description", "Original Description"])
      "Amount" ["Amount", "Transaction Amount"]) "Date" = none := by
    rw [getCol?_renameStep_ne _ "Amount" ["Amount", "Transaction Amount"] "Date"
      (by decide) (by decide)]
    rw [getCol?_renameStep_ne _ "Description" ["Description", "Original Description"] "Date"
      (by decide) (by decide)]
    exact getCol?_none_of_hasCol_false df "Date"
      (by simpa using hall "Date" (by decide))
  rw [getCol?_fillStep_ne _ "Amount" "Date" (by decide)]
  rw [getCol?_fillStep_ne _ "Description" "Date" (by decide)]
  rw [getCol?_fillStep_self _ "Date" e1]
  rw [renameStep_nrows, renameStep_nrows]

/-- A later date alias than the renamed one keeps its name and values. -/
lemma std_date_untouched (df : DF) (c c2 : String)
    (hfind : ["Date", "Transaction Date", "Posted Date"].find? (fun a => hasCol df a) = some c)
    (h2 : c2 ∈ ["Date", "Transaction Date", "Posted Date"]) (hne : c2 ≠ c)
    (hcol : hasCol df c2 = true) :
    getCol? (standardizeColumns df) c2 = getCol? df c2 := by
  have hc2d : c2 ≠ "Date" := by
    intro hcon
    rw [List.find?_cons_of_pos _ (by simpa using hcon ▸ hcol)] at hfind
    exact hne (hcon.trans (Option.some.inj hfind))
  have h2e : c2 = "Date" ∨ c2 = "Transaction Date" ∨ c2 = "Posted Date" := by
    simpa using h2
  have hc2rest : c2 = "Transaction Date" ∨ c2 = "Posted Date" := by
    rcases h2e with h | h | h
    · exact absurd h hc2d
    · exact Or.inl h
    · exact Or.inr h
  have hd : ¬ "Date" = c2 := fun hcon => hc2d hcon.symm
  have hds : ¬ "Description" = c2 := by rcases hc2rest with h | h <;> rw [h] <;> decide
  have ham : ¬ "Amount" = c2 := by rcases hc2rest with h | h <;> rw [h] <;> decide
  rw [standardizeColumns_steps]
  rw [getCol?_fillStep_ne _ "Amount" c2 ham]
  rw [getCol?_fillStep_ne _ "Description" c2 hds]
  rw [getCol?_fillStep_ne _ "Date" c2 hd]
  rw [getCol?_renameStep_ne _ "Amount" ["Amount", "Transaction Amount"] c2
    (by rcases hc2rest with h | h <;> rw [h] <;> decide) ham]
  rw [getCol?_renameStep_ne _ "Description" ["Description", "Original Description"] c2
    (by rcases hc2rest with h | h <;> rw [h] <;> decide) hds]
  exact getCol?_renameStep_found_ne df "Date" c c2 _ hfind (fun hcon => hne hcon.symm) hd

/-- Presence of the date aliases is unchanged by the date rename step. -/
lemma hasCol_after_date_step (df : DF) :
    ∀ a ∈ ["Description", "Original Description", "Amount", "Transaction Amount"],
      hasCol (renameStep df "Date" ["Date", "Transaction Date", "Posted Date"]) a
        = hasCol df a := by
  intro a ha
  refine hasCol_eq_of_getCol?_eq _ _ a
    (getCol?_renameStep_ne df "Date" ["Date", "Transaction Date", "Posted Date"] a ?_ ?_)
  · exact fun x hx =>
      (by decide : ∀ a ∈ ["Description", "Original Description", "Amount", "Transaction Amount"],
        ∀ x ∈ ["Date", "Transaction Date", "Posted Date"], x ≠ a) a ha x hx
  · exact (by decide : ∀ a ∈ ["Description", "Original Description", "Amount",
      "Transaction Amount"], "Date" ≠ a) a ha

/-- Presence of the amount aliases is unchanged by the description rename
step. -/
lemma hasCol_after_desc_step (df1 : DF) :
    ∀ a ∈ ["Amount", "Transaction Amount"],
      hasCol (renameStep df1 "Description" ["Description", "Original Description"]) a
        = hasCol df1 a := by
  intro a ha
  refine hasCol_eq_of_getCol?_eq _ _ a
    (getCol?_renameStep_ne df1 "Description" ["Description", "Original Description"] a ?_ ?_)
  · exact fun x hx =>
      (by decide : ∀ a ∈ ["Amount", "Transaction Amount"],
        ∀ x ∈ ["Description", "Original Description"], x ≠ a) a ha x hx
  · exact (by decide : ∀ a ∈ ["Amount", "Transaction Amount"], "Description" ≠ a) a ha

/-- The Description column of the normalized table when some description
alias is present. -/
lemma std_desc_found (df : DF) (c : String)
    (hfind : ["Description", "Original Description"].find? (fun a => hasCol df a) = some c) :
    getCol? (standardizeColumns df) "Description" = getCol? df c := by
  have hmem : c ∈ ["Description", "Original Description"] := List.mem_of_find?_eq_some hfind
  have hsome : hasCol df c = true := List.find?_some hfind
  have hmem4 : ∀ a ∈ ["Description", "Original Description"],
      a ∈ ["Description", "Original Description", "Amount", "Transaction Amount"] := by decide
  have hfind1 : ["Description", "Original Description"].find?
      (fun a => hasCol (renameStep df "Date" ["Date", "Transaction Date", "Posted Date"]) a)
      = some c :=
    (find?_congr_mem _ _ _ (fun a ha => hasCol_after_date_step df a (hmem4 a ha))).trans hfind
  have e1 : getCol? (renameStep (renameStep df "Date" ["Date", "Transaction Date", "Posted Date"])
      "Description" ["Description", "Original Description"]) "Description"
      = getCol? df c := by
    rw [getCol?_renameStep_head _ "Description" c ["Original Description"] hfind1]
    exact getCol?_renameStep_ne df "Date" ["Date", "Transaction Date", "Posted Date"] c
      ((by decide : ∀ c ∈ ["Description", "Original Description"],
        ∀ x ∈ ["Date", "Transaction Date", "Posted Date"], x ≠ c) c hmem)
      ((by decide : ∀ c ∈ ["Description", "Original Description"], "Date" ≠ c) c hmem)
  rw [standardizeColumns_steps]
  rw [getCol?_fillStep_ne _ "Amount" "Description" (by decide)]
  rw [fillStep_of_hasCol _ "Description" ?hc]
  case hc =>
    rw [hasCol, getCol?_fillStep_ne _ "Date" "Description" (by decide)]
    rw [getCol?_renameStep_ne _ "Amount" ["Amount", "Transaction Amount"] "Description"
      (by decide) (by decide)]
    rw [e1]
    unfold hasCol at hsome
    exact hsome
  rw [getCol?_fillStep_ne _ "Date" "Description" (by decide)]
  rw [getCol?_renameStep_ne _ "Amount" ["Amount", "Transaction Amount"] "Description"
    (by decide) (by decide)]
  exact e1

/-- The Description column of the normalized table when no description alias
is present. -/
lemma std_desc_none (df : DF)
    (hfind : ["Description", "Original Description"].find? (fun a => hasCol df a) = none) :
    getCol? (standardizeColumns df) "Description" = some (List.replicate df.nrows none) := by
  have hall := List.find?_eq_none.mp hfind
  have hmem4 : ∀ a ∈ ["Description", "Original Description"],
      a ∈ ["Description", "Original Description", "Amount", "Transaction Amount"] := by decide
  have hfind1 : ["Description", "Original Description"].find?
      (fun a => hasCol (renameStep df "Date" ["Date", "Transaction Date", "Posted Date"]) a)
      = none :=
    (find?_congr_mem _ _ _ (fun a ha => hasCol_after_date_step df a (hmem4 a ha))).trans hfind
  have e0 : renameStep (renameStep df "Date" ["Date", "Transaction Date", "Posted Date"])
      "Description" ["Description", "Original Description"]
      = renameStep df "Date" ["Date", "Transaction Date", "Posted Date"] :=
    renameStep_none _ _ _ hfind1
  have e1 : getCol? (renameStep (renameStep (renameStep df
      "Date" ["Date", "Transaction Date", "Posted Date"])
      "Description" ["Description", "Original Description"])
      "Amount" ["Amount", "Transaction Amount"]) "Description" = none := by
    rw [getCol?_renameStep_ne _ "Amount" ["Amount", "Transaction Amount"] "Description"
      (by decide) (by decide), e0]
    rw [getCol?_renameStep_ne _ "Date" ["Date", "Transaction Date", "Posted Date"] "Description"
      (by decide) (by decide)]
    exact getCol?_none_of_hasCol_false df "Description"
      (by simpa using hall "Description" (by decide))
  have e2 : getCol? (fillStep (renameStep (renameStep (renameStep df
      "Date" ["Date", "Transaction Date", "Posted Date"])
      "Description" ["Description", "Original Description"])
      "Amount" ["Amount", "Transaction Amount"]) "Date") "Description" = none := by
    rw [getCol?_fillStep_ne _ "Date" "Description" (by decide)]
    exact e1
  rw [standardizeColumns_steps]
  rw [getCol?_fillStep_ne _ "Amount" "Description" (by decide)]
  rw [getCol?_fillStep_self _ "Description" e2]
  rw [fillStep_nrows, renameStep_nrows, renameStep_nrows, renameStep_nrows]

/-- A later description alias than the renamed one keeps its name and
values. -/
lemma std_desc_untouched (df : DF) (c c2 : String)
    (hfind : ["Description", "Original Description"].find? (fun a => hasCol df a) = some c)
    (h2 : c2 ∈ ["Description", "Original Description"]) (hne : c2 ≠ c)
    (hcol : hasCol df c2 = true) :
    getCol? (standardizeColumns df) c2 = getCol? df c2 := by
  have hc2d : c2 ≠ "Description" := by
    intro hcon
    rw [List.find?_cons_of_pos _ (by simpa using hcon ▸ hcol)] at hfind
    exact hne (hcon.trans (Option.some.inj hfind))
  have h2e : c2 = "Description" ∨ c2 = "Original Description" := by simpa using h2
  have hc2rest : c2 = "Original Description" := by
    rcases h2e with h | h
    · exact absurd h hc2d
    · exact h
  subst hc2rest
  have hmem4 : ∀ a ∈ ["Description", "Original Description"],
      a ∈ ["Description", "Original Description", "Amount", "Transaction Amount"] := by decide
  have hfind1 : ["Description", "Original Description"].find?
      (fun a => hasCol (renameStep df "Date" ["Date", "Transaction Date", "Posted Date"]) a)
      = some c :=
    (find?_congr_mem _ _ _ (fun a ha => hasCol_after_date_step df a (hmem4 a ha))).trans hfind
  rw [standardizeColumns_steps]
  rw [getCol?_fillStep_ne _ "Amount" "Original Description" (by decide)]
  rw [getCol?_fillStep_ne _ "Description" "Original Description" (by decide)]
  rw [getCol?_fillStep_ne _ "Date" "Original Description" (by decide)]
  rw [getCol?_renameStep_ne _ "Amount" ["Amount", "Transaction Amount"] "Original Description"
    (by decide) (by decide)]
  rw [getCol?_renameStep_found_ne _ "Description" c "Original Description" _ hfind1
    (fun hcon => hne hcon.symm) (by decide)]
  exact getCol?_renameStep_ne df "Date" ["Date", "Transaction Date", "Posted Date"]
    "Original Description" (by decide) (by decide)

/-- The Amount column of the normalized table when some amount alias is
present. -/
lemma std_amount_found (df : DF) (c : String)
    (hfind : ["Amount", "Transaction Amount"].find? (fun a => hasCol df a) = some c) :
    getCol? (standardizeColumns df) "Amount" = getCol? df c := by
  have hmem : c ∈ ["Amount", "Transaction Amount"] := List.mem_of_find?_eq_some hfind
  have hsome : hasCol df c = true := List.find?_some hfind
  have hmem4 : ∀ a ∈ ["Amount", "Transaction Amount"],
      a ∈ ["Description", "Original Description", "Amount", "Transaction Amount"] := by decide
  have hfind1 : ["Amount", "Transaction Amount"].find?
      (fun a => hasCol (renameStep df "Date" ["Date", "Transaction Date", "Posted Date"]) a)
      = some c :=
    (find?_congr_mem _ _ _ (fun a ha => hasCol_after_date_step df a (hmem4 a ha))).trans hfind
  have hfind2 : ["Amount", "Transaction Amount"].find?
      (fun a => hasCol (renameStep (renameStep df
        "Date" ["Date", "Transaction Date", "Posted Date"])
        "Description" ["Description", "Original Description"]) a)
      = some c :=
    (find?_congr_mem _ _ _ (fun a ha => hasCol_after_desc_step _ a ha)).trans hfind1
  have e1 : getCol? (renameStep (renameStep (renameStep df
      "Date" ["Date", "Transaction Date", "Posted Date"])
      "Description" ["Description", "Original Description"])
      "Amount" ["Amount", "Transaction Amount"]) "Amount"
      = getCol? df c := by
    rw [getCol?_renameStep_head _ "Amount" c ["Transaction Amount"] hfind2]
    rw [getCol?_renameStep_ne _ "Description" ["Description", "Original Description"] c
      ((by decide : ∀ c ∈ ["Amount", "Transaction Amount"],
        ∀ x ∈ ["Description", "Original Description"], x ≠ c) c hmem)
      ((by decide : ∀ c ∈ ["Amount", "Transaction Amount"], "Description" ≠ c) c hmem)]
    exact getCol?_renameStep_ne df "Date" ["Date", "Transaction Date", "Posted Date"] c
      ((by decide : ∀ c ∈ ["Amount", "Transaction Amount"],
        ∀ x ∈ ["Date", "Transaction Date", "Posted Date"], x ≠ c) c hmem)
      ((by decide : ∀ c ∈ ["Amount", "Transaction Amount"], "Date" ≠ c) c hmem)
  rw [standardizeColumns_steps]
  rw [fillStep_of_hasCol _ "Amount" ?hc]
  case hc =>
    rw [hasCol, getCol?_fillStep_ne _ "Description" "Amount" (by decide)]
    rw [getCol?_fillStep_ne _ "Date" "Amount" (by decide)]
    rw [e1]
    unfold hasCol at hsome
    exact hsome
  rw [getCol?_fillStep_ne _ "Description" "Amount" (by decide)]
  rw [getCol?_fillStep_ne _ "Date" "Amount" (by decide)]
  exact e1

/-- The Amount column of the normalized table when no amount alias is
present: it is created null-filled. -/
lemma std_amount_none (df : DF)
    (hfind : ["Amount", "Transaction Amount"].find? (fun a => hasCol df a) = none) :
    getCol? (standardizeColumns df) "Amount" = some (List.replicate df.nrows none) := by
  have hall := List.find?_eq_none.mp hfind
  have hmem4 : ∀ a ∈ ["Amount", "Transaction Amount"],
      a ∈ ["Description", "Original Description", "Amount", "Transaction Amount"] := by decide
  have hfind1 : ["Amount", "Transaction Amount"].find?
      (fun a => hasCol (renameStep df "Date" ["Date", "Transaction Date", "Posted Date"]) a)
      = none :=
    (find?_congr_mem _ _ _ (fun a ha => hasCol_after_date_step df a (hmem4 a ha))).trans hfind
  have hfind2 : ["Amount", "Transaction Amount"].find?
      (fun a => hasCol (renameStep (renameStep df
        "Date" ["Date", "Transaction Date", "Posted Date"])
        "Description" ["Description", "Original Description"]) a)
      = none :=
    (find?_congr_mem _ _ _ (fun a ha => hasCol_after_desc_step _ a ha)).trans hfind1
  have e0 : renameStep (renameStep (renameStep df
      "Date" ["Date", "Transaction Date", "Posted Date"])
      "Description" ["Description", "Original Description"])
      "Amount" ["Amount", "Transaction Amount"]
      = renameStep (renameStep df "Date" ["Date", "Transaction Date", "Posted Date"])
          "Description" ["Description", "Original Description"] :=
    renameStep_none _ _ _ hfind2
  have e2 : getCol? (fillStep (fillStep (renameStep (renameStep (renameStep df
      "Date" ["Date", "Transaction Date", "Posted Date"])
      "Description" ["Description", "Original Description"])
      "Amount" ["Amount", "Transaction Amount"]) "Date") "Description") "Amount" = none := by
    rw [getCol?_fillStep_ne _ "Description" "Amount" (by decide)]
    rw [getCol?_fillStep_ne _ "Date" "Amount" (by decide)]
    rw [e0]
    rw [getCol?_renameStep_ne _ "Description" ["Description", "Original Description"] "Amount"
      (by decide) (by decide)]
    rw [getCol?_renameStep_ne _ "Date" ["Date", "Transaction Date", "Posted Date"] "Amount"
      (by decide) (by decide)]
    exact getCol?_none_of_hasCol_false df "Amount"
      (by simpa using hall "Amount" (by decide))
  rw [standardizeColumns_steps]
  rw [getCol?_fillStep_self _ "Amount" e2]
  rw [fillStep_nrows, fillStep_nrows, renameStep_nrows, renameStep_nrows, renameStep_nrows]

/-- A later amount alias than the renamed one keeps its name and values. -/
lemma std_amount_untouched (df : DF) (c c2 : String)
    (hfind : ["Amount", "Transaction Amount"].find? (fun a => hasCol df a) = some c)
    (h2 : c2 ∈ ["Amount", "Transaction Amount"]) (hne : c2 ≠ c)
    (hcol : hasCol df c2 = true) :
    getCol? (standardizeColumns df) c2 = getCol? df c2 := by
  have hc2d : c2 ≠ "Amount" := by
    intro hcon
    rw [List.find?_cons_of_pos _ (by simpa using hcon ▸ hcol)] at hfind
    exact hne (hcon.trans (Option.some.inj hfind))
  have h2e : c2 = "Amount" ∨ c2 = "Transaction Amount" := by simpa using h2
  have hc2rest : c2 = "Transaction Amount" := by
    rcases h2e with h | h
    · exact absurd h hc2d
    · exact h
  subst hc2rest
  have hmem4 : ∀ a ∈ ["Amount", "Transaction Amount"],
      a ∈ ["Description", "Original Description", "Amount", "Transaction Amount"] := by decide
  have hfind1 : ["Amount", "Transaction Amount"].find?
      (fun a => hasCol (renameStep df "Date" ["Date", "Transaction Date", "Posted Date"]) a)
      = some c :=
    (find?_congr_mem _ _ _ (fun a ha => hasCol_after_date_step df a (hmem4 a ha))).trans hfind
  have hfind2 : ["Amount", "Transaction Amount"].find?
      (fun a => hasCol (renameStep (renameStep df
        "Date" ["Date", "Transaction Date", "Posted Date"])
        "Description" ["Description", "Original Description"]) a)
      = some c :=
    (find?_congr_mem _ _ _ (fun a ha => hasCol_after_desc_step _ a ha)).trans hfind1
  rw [standardizeColumns_steps]
  rw [getCol?_fillStep_ne _ "Amount" "Transaction Amount" (by decide)]
  rw [getCol?_fillStep_ne _ "Description" "Transaction Amount" (by decide)]
  rw [getCol?_fillStep_ne _ "Date" "Transaction Amount" (by decide)]
  rw [getCol?_renameStep_found_ne _ "Amount" c "Transaction Amount" _ hfind2
    (fun hcon => hne hcon.symm) (by decide)]
  rw [getCol?_renameStep_ne _ "Description" ["Description", "Original Description"]
    "Transaction Amount" (by decide) (by decide)]
  exact getCol?_renameStep_ne df "Date" ["Date", "Transaction Date", "Posted Date"]
    "Transaction Amount" (by decide) (by decide)

/-- C8: for every input table with arbitrary column names, normalization
exposes all three canonical fields: for each canonical field the first
matching alias in declared alias-list order is renamed to the canonical
name, keeping its values, later aliases are left untouched, a canonical
field with no alias present is created null-valued for every row, and the
normalizer is a total function, so no error is raised for missing or
duplicate aliases. -/
theorem c8_standardize_columns (df : DF) :
    (hasCol (standardizeColumns df) "Date" = true
      ∧ hasCol (standardizeColumns df) "Description" = true
      ∧ hasCol (standardizeColumns df) "Amount" = true)
    ∧ (∀ std aliases, (std, aliases) ∈ columnMapping →
        (∀ c, aliases.find? (fun a => hasCol df a) = some c →
          getCol? (standardizeColumns df) std = getCol? df c)
        ∧ (∀ c c2, aliases.find? (fun a => hasCol df a) = some c →
            c2 ∈ aliases → c2 ≠ c → hasCol df c2 = true →
            getCol? (standardizeColumns df) c2 = getCol? df c2)
        ∧ (aliases.find? (fun a => hasCol df a) = none →
            getCol? (standardizeColumns df) std = some (List.replicate df.nrows none))) := by
  constructor
  · refine ⟨?_, ?_, ?_⟩
    · cases hf : ["Date", "Transaction Date", "Posted Date"].find? (fun a => hasCol df a) with
      | some c =>
        rw [hasCol, std_date_found df c hf]
        have := List.find?_some hf
        unfold hasCol at this
        exact this
      | none =>
        rw [hasCol, std_date_none df hf]
        rfl
    · cases hf : ["Description", "Original Description"].find? (fun a => hasCol df a) with
      | some c =>
        rw [hasCol, std_desc_found df c hf]
        have := List.find?_some hf
        unfold hasCol at this
        exact this
      | none =>
        rw [hasCol, std_desc_none df hf]
        rfl
    · cases hf : ["Amount", "Transaction Amount"].find? (fun a => hasCol df a) with
      | some c =>
        rw [hasCol, std_amount_found df c hf]
        have := List.find?_some hf
        unfold hasCol at this
        exact this
      | none =>
        rw [hasCol, std_amount_none df hf]
        rfl
  · intro std aliases hmem
    have hmem3 : (std, aliases) = ("Date", ["Date", "Transaction Date", "Posted Date"])
        ∨ (std, aliases) = ("Description", ["Description", "Original Description"])
        ∨ (std, aliases) = ("Amount", ["Amount", "Transaction Amount"]) := by
      simpa [columnMapping] using hmem
    rcases hmem3 with h | h | h
    · injection h with h1 h2
      subst h1
      subst h2
      exact ⟨fun c hf => std_date_found df c hf,
        fun c c2 hf hm hne hcol => std_date_untouched df c c2 hf hm hne hcol,
        fun hf => std_date_none df hf⟩
    · injection h with h1 h2
      subst h1
      subst h2
      exact ⟨fun c hf => std_desc_found df c hf,
        fun c c2 hf hm hne hcol => std_desc_untouched df c c2 hf hm hne hcol,
        fun hf => std_desc_none df hf⟩
    · injection h with h1 h2
      subst h1
      subst h2
      exact ⟨fun c hf => std_amount_found df c hf,
        fun c c2 hf hm hne hcol => std_amount_untouched df c c2 hf hm hne hcol,
        fun hf => std_amount_none df hf⟩

/-! ## Claim C4: a file with no amount alias -/

lemma getD_replicate {α : Type} (n i : Nat) (a : α) :
    (List.replicate n a).getD i a = a := by
  rw [List.getD_eq_getElem?_getD, List.getElem?_replicate]
  split <;> rfl

lemma standardizeColumns_nrows (df : DF) :
    (standardizeColumns df).nrows = df.nrows := by
  rw [standardizeColumns_steps, fillStep_nrows, fillStep_nrows, fillStep_nrows,
    renameStep_nrows, renameStep_nrows, renameStep_nrows]

lemma dfToRows_length (df : DF) (src : String) :
    (dfToRows df src).length = df.nrows := by
  unfold dfToRows
  rw [List.length_map, List.length_range]

lemma loadFinancialData_single (src : String) (df : DF) :
    loadFinancialData [(src, some df)]
      = some (categorizeTransactions (sortByDate (dfToRows (standardizeColumns df) src))) := by
  simp [loadFinancialData]

lemma categorizeTransactions_length (rows : List Row) :
    (categorizeTransactions rows).length = rows.length := by
  rw [categorizeTransactions_eq, List.length_map]

lemma mem_categorizeTransactions (rows : List Row) (r : Row)
    (hr : r ∈ categorizeTransactions rows) :
    ∃ r0 ∈ rows, r.amount = r0.amount := by
  rw [categorizeTransactions_eq, List.mem_map] at hr
  obtain ⟨r0, h0, rfl⟩ := hr
  exact ⟨r0, h0, rfl⟩

set_option maxHeartbeats 1000000 in
lemma dfToRows_amount_none (df : DF) (src : String)
    (hfind : ["Amount", "Transaction Amount"].find? (fun a => hasCol df a) = none) :
    ∀ r ∈ dfToRows (standardizeColumns df) src, r.amount = none := by
  intro r hr
  unfold dfToRows at hr
  rw [List.mem_map] at hr
  obtain ⟨i, _, rfl⟩ := hr
  show cellAt (standardizeColumns df) "Amount" i = none
  unfold cellAt
  rw [std_amount_none df hfind]
  exact getD_replicate df.nrows i none

/-- C4 counterexample input: one row, no amount alias at all. -/
def dfNoAmount : DF :=
  ⟨1, [("Date", [some (Cell.str "2023-01-05")]),
       ("Description", [some (Cell.str "GROCERIES STORE")])]⟩

set_option maxHeartbeats 1000000 in
/-- C4 counterexample: the file with no Amount alias loads its one row with
a null amount (first half of the claim holds), but the category summary
reports Transaction_Count 0 for the row's category, because the pandas
count aggregate tallies only non-null Amount cells — the count does not
include the row, refuting the second half of the claim. -/
theorem c4_missing_amount_counterexample :
    ((loadFinancialData [("bank.csv", some dfNoAmount)]).getD []).map Row.amount = [none]
    ∧ ((loadFinancialData [("bank.csv", some dfNoAmount)]).getD []).length = 1
    ∧ (Except.toOption (generateTaxReports
        (loadFinancialData [("bank.csv", some dfNoAmount)]))).map
          (fun p => p.2.categorySummary) = some [("Personal", 0, 0)] :=
  ⟨by decide, by decide, by decide⟩

lemma categorySummary_count_zero (rows : List Row)
    (hnull : ∀ r ∈ rows, r.amount = none) :
    ∀ e ∈ categorySummary rows, e.2.1 = 0 := by
  intro e he
  unfold categorySummary at he
  rw [List.mem_map] at he
  obtain ⟨c, _, rfl⟩ := he
  show countNonNullAmount rows c = 0
  unfold countNonNullAmount
  rw [List.filter_eq_nil_iff.mpr ?_]
  · rfl
  · intro r hr
    rw [hnull r hr]
    simp

set_option maxHeartbeats 1000000 in
/-- C4 amended: for an input file lacking any Amount-column alias, all of
its rows load with a null amount and remain rows of the transaction set,
but the category summary's per-category transaction count excludes them: it
counts only rows with a non-null amount, so every count over such a file is
zero. -/
theorem c4_missing_amount_column (df : DF) (src : String) (rows : List Row)
    (hfind : ["Amount", "Transaction Amount"].find? (fun a => hasCol df a) = none)
    (hload : loadFinancialData [(src, some df)] = some rows) :
    rows.length = df.nrows
    ∧ (∀ r ∈ rows, r.amount = none)
    ∧ (∀ e ∈ categorySummary rows, e.2.1 = 0) := by
  rw [loadFinancialData_single src df] at hload
  injection hload with hrows
  subst hrows
  have hnull : ∀ r ∈ categorizeTransactions
      (sortByDate (dfToRows (standardizeColumns df) src)), r.amount = none := by
    intro r hr
    obtain ⟨r1, h1, he⟩ := mem_categorizeTransactions _ r hr
    rw [he]
    have h2 : r1 ∈ dfToRows (standardizeColumns df) src :=
      (List.perm_insertionSort _ _).subset h1
    exact dfToRows_amount_none df src hfind r1 h2
  refine ⟨?_, hnull, categorySummary_count_zero _ hnull⟩
  rw [categorizeTransactions_length]
  unfold sortByDate
  rw [List.length_insertionSort, dfToRows_length, standardizeColumns_nrows]

/-- The rows the C4 counterexample file loads into. -/
def c4rows : List Row :=
  [⟨some ⟨2023, 1, 5⟩, some "GROCERIES STORE", none, "bank.csv", some "Personal", none⟩]

set_option maxHeartbeats 1000000 in
/-- Witness for the amended C4 at the concrete one-row file. -/
theorem c4_missing_amount_column_witness :
    c4rows.length = dfNoAmount.nrows
    ∧ (∀ r ∈ c4rows, r.amount = none)
    ∧ (∀ e ∈ categorySummary c4rows, e.2.1 = 0) :=
  c4_missing_amount_column dfNoAmount "bank.csv" c4rows (by decide) (by decide)

/-! ## Claim C5: summary counts versus total transactions -/

/-- Occurrence count of one category label. -/
def cnt (c : String) (L : List String) : Nat :=
  (L.filter (fun y => y = c)).length

lemma cnt_cons (c x : String) (L : List String) :
    cnt c (x :: L) = cnt c L + (if x = c then 1 else 0) := by
  unfold cnt
  by_cases hx : x = c
  · rw [List.filter_cons_of_pos (by simpa using hx), if_pos hx, List.length_cons]
  · rw [List.filter_cons_of_neg (by simpa using hx), if_neg hx]
    rfl

lemma countNonNullAmount_eq_cnt (rows : List Row) (c : String) :
    countNonNullAmount rows c
      = cnt c ((rows.filter (fun r => (r.amount).isSome)).filterMap (fun r => r.category)) := by
  induction rows with
  | nil => rfl
  | cons r t ih =>
    unfold countNonNullAmount at ih ⊢
    by_cases hamt : (r.amount).isSome = true
    · cases hcat : r.category with
      | none =>
        rw [List.filter_cons_of_neg (by simp [hcat]),
          List.filter_cons_of_pos (by simpa using hamt),
          List.filterMap_cons_none (by simp [hcat])]
        exact ih
      | some c0 =>
        by_cases hc0 : c0 = c
        · rw [List.filter_cons_of_pos (by simp [hcat, hc0, hamt]), List.length_cons,
            List.filter_cons_of_pos (by simpa using hamt),
            show List.filterMap (fun r => r.category)
              (r :: List.filter (fun r => (r.amount).isSome) t)
              = c0 :: List.filterMap (fun r => r.category)
                  (List.filter (fun r => (r.amount).isSome) t) from by
              rw [List.filterMap_cons]
              simp [hcat],
            cnt_cons, if_pos hc0, ih]
        · rw [List.filter_cons_of_neg (by simp [hcat, hc0]),
            List.filter_cons_of_pos (by simpa using hamt),
            show List.filterMap (fun r => r.category)
              (r :: List.filter (fun r => (r.amount).isSome) t)
              = c0 :: List.filterMap (fun r => r.category)
                  (List.filter (fun r => (r.amount).isSome) t) from by
              rw [List.filterMap_cons]
              simp [hcat],
            cnt_cons, if_neg hc0, ih]
          exact (Nat.add_zero _).symm
    · rw [List.filter_cons_of_neg (by simp [hamt]),
        List.filter_cons_of_neg (by simpa using hamt)]
      exact ih

lemma sum_map_add (cs : List String) (f g : String → Nat) :
    (cs.map (fun c => f c + g c)).sum = (cs.map f).sum + (cs.map g).sum := by
  induction cs with
  | nil => rfl
  | cons c t ih =>
    simp only [List.map_cons, List.sum_cons, ih]
    omega

lemma sum_map_ite_zero (x : String) :
    ∀ cs : List String, x ∉ cs → (cs.map (fun c => if x = c then 1 else 0)).sum = 0 := by
  intro cs
  induction cs with
  | nil => intro _; rfl
  | cons c t ih =>
    intro hx
    rw [List.mem_cons, not_or] at hx
    simp only [List.map_cons, List.sum_cons]
    rw [if_neg hx.1, ih hx.2]

lemma sum_map_ite_one (x : String) :
    ∀ cs : List String, cs.Nodup → x ∈ cs →
      (cs.map (fun c => if x = c then 1 else 0)).sum = 1 := by
  intro cs
  induction cs with
  | nil =>
    intro _ hx
    exact absurd hx (List.not_mem_nil x)
  | cons c t ih =>
    intro hnd hx
    obtain ⟨hni, hndt⟩ := List.nodup_cons.mp hnd
    simp only [List.map_cons, List.sum_cons]
    by_cases hxc : x = c
    · rw [if_pos hxc, sum_map_ite_zero x t (hxc ▸ hni)]
    · rw [if_neg hxc]
      have hxt : x ∈ t := by
        rcases List.mem_cons.mp hx with h | h
        · exact absurd h hxc
        · exact h
      rw [ih hndt hxt]

lemma sum_cnt_of_cover (cs : List String) :
    ∀ L : List String, cs.Nodup → (∀ x ∈ L, x ∈ cs) →
      (cs.map (fun c => cnt c L)).sum = L.length := by
  intro L
  induction L with
  | nil =>
    intro _ _
    simp [cnt]
  | cons x t ih =>
    intro hnd hcov
    rw [List.map_congr_left (fun c _ => cnt_cons c x t), sum_map_add,
      ih hnd (fun y hy => hcov y (List.mem_cons_of_mem x hy)),
      sum_map_ite_one x cs hnd (hcov x (List.mem_cons_self x t)), List.length_cons]

lemma length_filterMap_isSome {α β : Type} (f : α → Option β) :
    ∀ l : List α, (∀ x ∈ l, (f x).isSome = true) → (l.filterMap f).length = l.length := by
  intro l
  induction l with
  | nil => intro _; rfl
  | cons a t ih =>
    intro h
    obtain ⟨b, hb⟩ := Option.isSome_iff_exists.mp (h a (List.mem_cons_self a t))
    rw [List.filterMap_cons_some hb, List.length_cons, List.length_cons,
      ih (fun x hx => h x (List.mem_cons_of_mem a hx))]

/-- C5 counterexample: one transaction with a null amount forms a final
transaction set whose category summary counts sum to 0 while the set has 1
transaction, because the count aggregate tallies only non-null Amount
cells. -/
theorem c5_counts_sum_counterexample :
    ((categorySummary (categorizeTransactions
        [⟨none, none, none, "x.csv", none, none⟩])).map (fun e => e.2.1)).sum = 0
    ∧ (categorizeTransactions [⟨none, none, none, "x.csv", none, none⟩]).length = 1 :=
  ⟨by decide, by decide⟩

/-- C5 amended: for every transaction set in which every transaction has a
category (as the categorizer guarantees), the sum over the category summary
of the per-category transaction counts equals the number of transactions
with a non-null amount, not the total number of transactions. -/
theorem c5_counts_sum_total (rows : List Row)
    (h : ∀ r ∈ rows, (r.category).isSome = true) :
    ((categorySummary rows).map (fun e => e.2.1)).sum
      = (rows.filter (fun r => (r.amount).isSome)).length := by
  have h1 : (categorySummary rows).map (fun e => e.2.1)
      = (catKeys rows).map (fun c => countNonNullAmount rows c) := by
    unfold categorySummary
    rw [List.map_map]
    rfl
  have hperm := List.perm_insertionSort (fun a b => strLe a b = true)
    ((rows.filterMap (fun r => r.category)).dedup)
  have h2 : ((catKeys rows).map (fun c => countNonNullAmount rows c)).sum
      = (((rows.filterMap (fun r => r.category)).dedup).map
          (fun c => countNonNullAmount rows c)).sum :=
    List.Perm.sum_eq (hperm.map _)
  have hcov : ∀ x ∈ (rows.filter (fun r => (r.amount).isSome)).filterMap (fun r => r.category),
      x ∈ (rows.filterMap (fun r => r.category)).dedup := by
    intro x hx
    rw [List.mem_filterMap] at hx
    obtain ⟨r, hr, hcatx⟩ := hx
    rw [List.mem_dedup, List.mem_filterMap]
    exact ⟨r, List.mem_of_mem_filter hr, hcatx⟩
  rw [h1, h2, List.map_congr_left (fun c _ => countNonNullAmount_eq_cnt rows c),
    sum_cnt_of_cover _ _ (List.nodup_dedup _) hcov,
    length_filterMap_isSome _ _ (fun r hr => h r (List.mem_of_mem_filter hr))]

/-- A one-transaction final set with a category and a non-null amount. -/
def wrowsC5 : List Row :=
  [⟨none, some "NETFLIX", some (Cell.num 7), "a.csv", some "Subscription", none⟩]

/-- Witness for the amended C5 at a concrete one-row set. -/
theorem c5_counts_sum_total_witness :
    ((categorySummary wrowsC5).map (fun e => e.2.1)).sum
      = (wrowsC5.filter (fun r => (r.amount).isSome)).length :=
  c5_counts_sum_total wrowsC5 (by decide)
